import Mathlib

/-!
Shallow embedding of the transaction categorization engine
(`src/transaction_processor.py` of the `pnl` repository) and proofs about it.

The category database is a Python dict holding three parallel lists of
strings; a loaded dict may carry further (unknown) keys, which we model as an
`extra` association list.  Descriptions, labels and key phrases are `String`;
the floating-point similarity values of `difflib` are modelled exactly as
rationals (every ratio is `2*m/t` for naturals `m`, `t`).
-/

namespace Pnl

/-- The in-memory category database: the Python dict with its three known
list-valued keys plus any unknown keys (`extra`) a loaded JSON object may
carry; `json.load` keeps such keys in the dict and the code never filters
them out. -/
structure CategoryDB where
  descriptions : List String
  business_labels : List String
  retailer_labels : List String
  extra : List (String × String)
deriving DecidableEq, Repr

/-- Model of `s.lower().replace(" ", "")` from the source: lowercase, then delete the
space character (only `' '`, as `str.replace(" ", "")` does). -/
def strNorm (s : String) : List Char :=
  (s.data.map Char.toLower).filter fun c => decide (c ≠ ' ')

/-- Test `leadsWith n h`: true iff `n` is an initial segment of `h`. -/
def leadsWith : List Char → List Char → Bool
  | [], _ => true
  | _ :: _, [] => false
  | a :: as, b :: bs => a == b && leadsWith as bs

/-- Test `hasSub n h`: true iff `n` occurs contiguously inside `h`; this is the
Python substring test `n in h`. -/
def hasSub (n : List Char) : List Char → Bool
  | [] => leadsWith n []
  | b :: bs => leadsWith n (b :: bs) || hasSub n bs

/-- The loop body of `_match_description`: walk the enumerated key phrases
and collect the indices whose normalized key phrase occurs in the normalized
description. -/
def matchScan (d : List Char) : List (Nat × String) → List Nat
  | [] => []
  | (idx, kp) :: rest =>
    if hasSub (strNorm kp) d then idx :: matchScan d rest else matchScan d rest

/-- Model of `TransactionProcessor._match_description`. -/
def matchDescription (db : CategoryDB) (description : String) : List Nat :=
  matchScan (strNorm description) db.descriptions.enum

/-- The accumulator loop of `categorize_transaction`: scan the matched
indices, fill each of the two fields from the first rule offering a non-empty
label for it, skipping out-of-range indices as the source does. -/
def categorizeLoop (db : CategoryDB) : List Nat → String → String → String × String
  | [], b, r => (b, r)
  | idx :: rest, b, r =>
    if db.business_labels.length ≤ idx ∨ db.retailer_labels.length ≤ idx then
      categorizeLoop db rest b r
    else
      categorizeLoop db rest
        (if db.business_labels.getD idx "" ≠ "" ∧ b = "" then db.business_labels.getD idx "" else b)
        (if db.retailer_labels.getD idx "" ≠ "" ∧ r = "" then db.retailer_labels.getD idx "" else r)

/-- Model of `TransactionProcessor.categorize_transaction`: on mismatched list lengths
return two empty strings; otherwise resolve each field first-match-wins over
the matched indices. -/
def categorize_transaction (db : CategoryDB) (description : String) : String × String :=
  if db.descriptions.length ≠ db.business_labels.length ∨
      db.descriptions.length ≠ db.retailer_labels.length then
    ("", "")
  else
    categorizeLoop db (matchDescription db description) "" ""

/-- The default rule set built in `_load_category_db` when no usable source
is given. -/
def default_db : CategoryDB :=
  { descriptions := ["oakhurst", "pleasanton", "san ramon", "dublin", "amazon", "costco"]
    business_labels := ["Oakhurst", "Personal", "Personal", "Personal", "", ""]
    retailer_labels := ["", "", "", "", "Amazon", "Costco"]
    extra := [] }

/-- Model of `TransactionProcessor._load_category_db`: `none` stands for an absent or
malformed source (missing file, JSON error, missing key), which falls back to
the defaults; a parsed object is validated for equal list lengths and, when
valid, returned verbatim (including unknown keys). -/
def load_category_db (source : Option CategoryDB) : CategoryDB :=
  match source with
  | none => default_db
  | some db =>
    if ¬(db.descriptions.length = db.business_labels.length ∧
          db.business_labels.length = db.retailer_labels.length) then
      default_db
    else db

/-- Model of `TransactionProcessor.save_category_db`: `json.dump(self.category_db, f)`
serializes the in-memory dict exactly as it is. -/
def save_category_db (db : CategoryDB) : CategoryDB := db

/-- Modelled from the spec: `add_category` is invoked by the repository's
tests and UI but its definition is missing from the sources given; per the
spec it "appends a new rule with the three given values ... unconditionally"
to the ends of the three parallel sequences, with no merging of duplicate
key phrases. -/
def add_category (db : CategoryDB) (key_phrase business_label retailer_label : String) :
    CategoryDB :=
  { db with
    descriptions := db.descriptions ++ [key_phrase]
    business_labels := db.business_labels ++ [business_label]
    retailer_labels := db.retailer_labels ++ [retailer_label] }

/-- A transaction record (one row of the dataframe); the fields the engine
never touches are carried opaquely as strings. -/
structure Record where
  status : String
  date : String
  description : String
  debit : String
  credit : String
  member_name : String
  business_type : String
  retailer : String
deriving DecidableEq, Repr

/-- One iteration of the `categorize_transactions` loop on a single row:
if either label is empty, run the matcher on the description and fill
exactly the fields that were empty (and for which the matcher produced a
non-empty value), testing against the original row as the source does. -/
def categorizeRecord (db : CategoryDB) (row : Record) : Record :=
  if row.business_type = "" ∨ row.retailer = "" then
    let p := categorize_transaction db row.description
    let row1 := if row.business_type = "" ∧ p.1 ≠ "" then
        { row with business_type := p.1 } else row
    if row.retailer = "" ∧ p.2 ≠ "" then { row1 with retailer := p.2 } else row1
  else row

/-- Model of `TransactionProcessor.categorize_transactions`: works on a copy of the
dataframe, updating each row independently. -/
def categorize_transactions (db : CategoryDB) (df : List Record) : List Record :=
  df.map (categorizeRecord db)

/-! ### The difflib similarity score

`find_similar_descriptions` calls `SequenceMatcher(None, a, b).ratio()` from
the Python standard library.  For the short strings involved the autojunk
heuristic (which only fires for second sequences of 200+ characters) is
inert, so the score is `2*m/(len a + len b)` where `m` is the total size of
the matching blocks found by `find_longest_match` recursion.  We model the
float result exactly as a rational. -/

/-- Ascending positions of character `c` within `b` that lie in `[blo, bhi)`
(the `b2j` lookup of `difflib`, restricted as the inner loop does). -/
def jsFor (b : List Char) (c : Char) (blo bhi : Nat) : List Nat :=
  (b.enum.filter fun p => p.2 == c && decide (blo ≤ p.1) && decide (p.1 < bhi)).map Prod.fst

/-- Inner loop of `find_longest_match` for one position `i` of `a`: fold the
candidate `j` positions, building `newj2len` and updating the best block.
The best block is `(besti, bestj, bestsize)`. -/
def flmInner (i : Nat) (j2len : Nat → Nat) :
    List Nat → (Nat → Nat) → Nat × Nat × Nat → ((Nat → Nat) × (Nat × Nat × Nat))
  | [], newj2len, best => (newj2len, best)
  | j :: js, newj2len, best =>
    let k := (if j = 0 then 0 else j2len (j - 1)) + 1
    let best' := if best.2.2 < k then (i + 1 - k, (j + 1 - k, k)) else best
    flmInner i j2len js (fun x => if x = j then k else newj2len x) best'

/-- Outer loop of `find_longest_match`: iterate `i` over `[alo, ahi)`. -/
def flmOuter (a b : List Char) (blo bhi : Nat) :
    List Nat → (Nat → Nat) → Nat × Nat × Nat → Nat × Nat × Nat
  | [], _, best => best
  | i :: is, j2len, best =>
    let r := flmInner i j2len (jsFor b (a.getD i ' ') blo bhi) (fun _ => 0) best
    flmOuter a b blo bhi is r.1 r.2

/-- Model of `SequenceMatcher.find_longest_match` over `a[alo:ahi]`, `b[blo:bhi]`
(no junk, as for short inputs). -/
def findLongestMatch (a b : List Char) (alo ahi blo bhi : Nat) : Nat × Nat × Nat :=
  flmOuter a b blo bhi ((List.range ahi).drop alo) (fun _ => 0) (alo, blo, 0)

/-- Total size of all matching blocks: the recursive decomposition that
`get_matching_blocks` performs around each longest match.  The fuel is an
upper bound on the recursion depth; it is never exhausted for the argument
`a.length + b.length + 1` used below, because each recursive call strictly
shrinks the combined span. -/
def matchTotal (a b : List Char) : Nat → Nat → Nat → Nat → Nat → Nat
  | 0, _, _, _, _ => 0
  | fuel + 1, alo, ahi, blo, bhi =>
    let m := findLongestMatch a b alo ahi blo bhi
    if m.2.2 = 0 then 0
    else
      m.2.2 + matchTotal a b fuel alo m.1 blo m.2.1 +
        matchTotal a b fuel (m.1 + m.2.2) ahi (m.2.1 + m.2.2) bhi

/-- Model of `SequenceMatcher(None, a, b).ratio()` as an exact rational,
`2*m / (len a + len b)` (written with `mkRat`, the normalized fraction, which
is the same rational number). -/
def difflibScore (sa sb : String) : ℚ :=
  let a := sa.data
  let b := sb.data
  let m := matchTotal a b (a.length + b.length + 1) 0 a.length 0 b.length
  if a.length + b.length = 0 then 1
  else mkRat (2 * m) (a.length + b.length)

/-! ### Similarity grouping -/

/-- Inner loop of `find_similar_descriptions` for one seed: scan the whole
enumerated description list, skipping the seed itself and already-grouped
positions, and absorb every position whose similarity to the seed reaches
the threshold.  Returns the extended group (original-collection indices) and
the extended consumed set (positions). -/
def scanAll (sim : String → String → ℚ) (thr : ℚ) (indices : List Nat)
    (d1 : String) (i : Nat) :
    List (Nat × String) → List Nat → List Nat → List Nat × List Nat
  | [], group, grouped => (group, grouped)
  | (j, d2) :: rest, group, grouped =>
    if i = j ∨ j ∈ grouped then scanAll sim thr indices d1 i rest group grouped
    else if thr ≤ sim d1 d2 then
      scanAll sim thr indices d1 i rest (group ++ [indices.getD j 0]) (grouped ++ [j])
    else scanAll sim thr indices d1 i rest group grouped

/-- Outer loop of `find_similar_descriptions`: walk the enumerated
descriptions; a position not yet consumed seeds a group, whose members are
found by `scanAll` over the full enumeration; groups of size at least 2 are
appended to the output. -/
def outerLoop (sim : String → String → ℚ) (thr : ℚ) (indices : List Nat)
    (allE : List (Nat × String)) :
    List (Nat × String) → List Nat → List (List Nat) → List (List Nat)
  | [], _, groups => groups
  | (i, d) :: rest, grouped, groups =>
    if i ∈ grouped then outerLoop sim thr indices allE rest grouped groups
    else
      let s := scanAll sim thr indices d i allE [indices.getD i 0] (grouped ++ [i])
      if 1 < s.1.length then outerLoop sim thr indices allE rest s.2 (groups ++ [s.1])
      else outerLoop sim thr indices allE rest s.2 groups

/-- Core of `find_similar_descriptions` with the similarity metric as a parameter:
`descriptions` is `df["Description"].tolist()` and `indices` is
`df.index.tolist()` (the original-collection indices of the rows). -/
def find_similar_core (sim : String → String → ℚ) (descriptions : List String)
    (indices : List Nat) (threshold : ℚ) : List (List Nat) :=
  if descriptions.isEmpty then []
  else outerLoop sim threshold indices descriptions.enum descriptions.enum [] []

/-- Model of `TransactionProcessor.find_similar_descriptions`: the grouping loop with
the difflib similarity score. -/
def find_similar_descriptions (descriptions : List String) (indices : List Nat)
    (threshold : ℚ) : List (List Nat) :=
  find_similar_core difflibScore descriptions indices threshold

/-- Definition following the claim's words (greedy single-pass seed-based
clustering): scan records in input order; skip a consumed record; otherwise
seed a group and add every *later* not-yet-consumed record whose similarity
to the seed reaches the threshold, consuming it; emit the group only if its
final size is at least 2; members are in input order with the seed first and
are reported as original-collection indices. -/
def groupClaimLoop (sim : String → String → ℚ) (thr : ℚ) (indices : List Nat) :
    List (Nat × String) → List Nat → List (List Nat)
  | [], _ => []
  | (i, d) :: rest, consumed =>
    if i ∈ consumed then groupClaimLoop sim thr indices rest consumed
    else
      let members := rest.filter fun p => decide (p.1 ∉ consumed ∧ thr ≤ sim d p.2)
      let g := indices.getD i 0 :: members.map fun p => indices.getD p.1 0
      let consumed' := consumed ++ [i] ++ members.map Prod.fst
      if 2 ≤ g.length then g :: groupClaimLoop sim thr indices rest consumed'
      else groupClaimLoop sim thr indices rest consumed'

/-- The claim's rendering of the grouping operation. -/
def group_claim (sim : String → String → ℚ) (descriptions : List String)
    (indices : List Nat) (threshold : ℚ) : List (List Nat) :=
  groupClaimLoop sim threshold indices descriptions.enum []

/-- The set of indices appearing in some output group. -/
def groupedIndices (groups : List (List Nat)) : List Nat := groups.flatten

/-! ### Claim-side definitions -/

/-- Claim-side: the label of the earliest index in `m` (the matched indices,
in ascending order) whose label is non-empty; empty string if none. -/
def earliestNonempty (labels : List String) : List Nat → String
  | [] => ""
  | i :: rest =>
    if labels.getD i "" ≠ "" then labels.getD i "" else earliestNonempty labels rest

/-- Claim-side normalization as C9's words have it: lowercase and remove
every whitespace character (not only spaces). -/
def wsNorm (s : String) : List Char :=
  (s.data.map Char.toLower).filter fun c => decide (¬ c.isWhitespace)

/-- Rendering of C9 as stated: the ascending indices whose key phrase,
stripped of all whitespace, occurs in the description stripped of all
whitespace. -/
def match_claim_ws (db : CategoryDB) (description : String) : List Nat :=
  (List.range db.descriptions.length).filter fun i =>
    hasSub (wsNorm (db.descriptions.getD i "")) (wsNorm description)

/-- Rendering of C9 as amended: the ascending indices whose key phrase,
stripped of space characters only, occurs in the description stripped of
space characters only. -/
def match_claim_space (db : CategoryDB) (description : String) : List Nat :=
  (List.range db.descriptions.length).filter fun i =>
    hasSub (strNorm (db.descriptions.getD i "")) (strNorm description)

/-- An all-empty record, used as the default value for positional lookups. -/
def recDefault : Record := ⟨"", "", "", "", "", "", "", ""⟩

/-! ### Helper lemmas about the matcher -/

theorem hasSub_nil : ∀ h : List Char, hasSub [] h = true
  | [] => rfl
  | _ :: bs => by simp [hasSub, leadsWith, hasSub_nil bs]

theorem matchScan_enumFrom (d : List Char) (l : List String) : ∀ (n : Nat) (g : Nat → Bool),
    (∀ k, k < l.length → g (n + k) = hasSub (strNorm (l.getD k "")) d) →
    matchScan d (l.enumFrom n) = (List.range' n l.length).filter g := by
  induction l with
  | nil => intro n g _; rfl
  | cons a l ih =>
    intro n g hg
    have h0 : g n = hasSub (strNorm a) d := by simpa using hg 0 (by simp)
    have hrec : matchScan d (l.enumFrom (n + 1)) = (List.range' (n + 1) l.length).filter g := by
      refine ih (n + 1) g fun k hk => ?_
      have h := hg (k + 1) (by simpa using Nat.succ_lt_succ hk)
      have he : n + (k + 1) = n + 1 + k := by omega
      rw [he] at h
      simpa using h
    show matchScan d ((n, a) :: l.enumFrom (n + 1)) = _
    simp only [List.length_cons, List.range'_succ, List.filter_cons, h0, matchScan, hrec]

theorem matchDescription_eq_filter (db : CategoryDB) (d : String) :
    matchDescription db d =
      (List.range db.descriptions.length).filter fun i =>
        hasSub (strNorm (db.descriptions.getD i "")) (strNorm d) := by
  rw [List.range_eq_range']
  exact matchScan_enumFrom (strNorm d) db.descriptions 0 _ fun k hk => by simp

theorem mem_matchDescription {db : CategoryDB} {d : String} {i : Nat} :
    i ∈ matchDescription db d ↔
      i < db.descriptions.length ∧
        hasSub (strNorm (db.descriptions.getD i "")) (strNorm d) = true := by
  rw [matchDescription_eq_filter]
  simp [List.mem_filter]

theorem matchDescription_pairwise (db : CategoryDB) (d : String) :
    (matchDescription db d).Pairwise (· < ·) := by
  rw [matchDescription_eq_filter]
  exact (List.pairwise_lt_range _).filter _

/-! ### Helper lemmas about the categorizer -/

theorem categorizeLoop_spec (db : CategoryDB) : ∀ (M : List Nat) (b r : String),
    (∀ i ∈ M, i < db.business_labels.length ∧ i < db.retailer_labels.length) →
    categorizeLoop db M b r =
      ((if b = "" then earliestNonempty db.business_labels M else b),
       (if r = "" then earliestNonempty db.retailer_labels M else r)) := by
  intro M
  induction M with
  | nil =>
    intro b r _
    by_cases hb : b = "" <;> by_cases hr : r = "" <;>
      simp [categorizeLoop, earliestNonempty, hb, hr]
  | cons i M ih =>
    intro b r hM
    have hib := (hM i (List.mem_cons_self _ _)).1
    have hir := (hM i (List.mem_cons_self _ _)).2
    have hguard : ¬(db.business_labels.length ≤ i ∨ db.retailer_labels.length ≤ i) := by
      omega
    simp only [categorizeLoop, if_neg hguard]
    rw [ih _ _ fun j hj => hM j (List.mem_cons_of_mem _ hj)]
    simp only [earliestNonempty, Prod.mk.injEq]
    constructor <;> split_ifs <;> simp_all

theorem categorize_eq_earliest (db : CategoryDB) (d : String)
    (h1 : db.descriptions.length = db.business_labels.length)
    (h2 : db.descriptions.length = db.retailer_labels.length) :
    categorize_transaction db d =
      (earliestNonempty db.business_labels (matchDescription db d),
       earliestNonempty db.retailer_labels (matchDescription db d)) := by
  unfold categorize_transaction
  rw [if_neg (by omega)]
  rw [categorizeLoop_spec db (matchDescription db d) "" "" fun i hi => by
    have := (mem_matchDescription.mp hi).1
    omega]
  simp

theorem earliestNonempty_eq_of (labels : List String) :
    ∀ (M : List Nat) (i : Nat), M.Pairwise (· < ·) → i ∈ M →
      labels.getD i "" ≠ "" → (∀ j ∈ M, j < i → labels.getD j "" = "") →
      earliestNonempty labels M = labels.getD i "" := by
  intro M
  induction M with
  | nil => intro i _ hi; cases hi
  | cons j M ih =>
    intro i hp hi hne hearlier
    rcases List.mem_cons.mp hi with rfl | hi'
    · simp only [earliestNonempty]
      rw [if_pos hne]
    · have hj : j < i := (List.pairwise_cons.mp hp).1 i hi'
      have hj0 : labels.getD j "" = "" := hearlier j (List.mem_cons_self _ _) hj
      simp only [earliestNonempty]
      rw [if_neg (not_not_intro hj0)]
      exact ih i (List.pairwise_cons.mp hp).2 hi' hne
        fun k hk hki => hearlier k (List.mem_cons_of_mem _ hk) hki

theorem categorizeLoop_extra (ds bl rl : List String) (e e' : List (String × String)) :
    ∀ (M : List Nat) (b r : String),
      categorizeLoop ⟨ds, bl, rl, e⟩ M b r = categorizeLoop ⟨ds, bl, rl, e'⟩ M b r := by
  intro M
  induction M with
  | nil => intro b r; rfl
  | cons i M ih => intro b r; simp only [categorizeLoop]; split <;> apply ih

theorem categorize_transaction_extra (ds bl rl : List String)
    (e e' : List (String × String)) (d : String) :
    categorize_transaction ⟨ds, bl, rl, e⟩ d = categorize_transaction ⟨ds, bl, rl, e'⟩ d := by
  unfold categorize_transaction matchDescription
  split <;> first
    | rfl
    | exact categorizeLoop_extra ds bl rl e e' _ "" ""

theorem categorizeRecord_eq (db : CategoryDB) (r : Record) :
    categorizeRecord db r =
      { r with
        business_type :=
          if r.business_type = "" ∧ (categorize_transaction db r.description).1 ≠ "" then
            (categorize_transaction db r.description).1
          else r.business_type
        retailer :=
          if r.retailer = "" ∧ (categorize_transaction db r.description).2 ≠ "" then
            (categorize_transaction db r.description).2
          else r.retailer } := by
  obtain ⟨st, dt, dsc, dbt, crd, mn, bt, rt⟩ := r
  unfold categorizeRecord
  by_cases hbt : bt = "" <;> by_cases hrt : rt = "" <;>
    by_cases hp1 : (categorize_transaction db dsc).1 = "" <;>
      by_cases hp2 : (categorize_transaction db dsc).2 = "" <;>
        simp [hbt, hrt, hp1, hp2]

theorem categorizeRecord_idem (db : CategoryDB) (r : Record) :
    categorizeRecord db (categorizeRecord db r) = categorizeRecord db r := by
  have h1 := categorizeRecord_eq db r
  have hdesc : (categorizeRecord db r).description = r.description := by rw [h1]
  have h2 := categorizeRecord_eq db (categorizeRecord db r)
  rw [hdesc] at h2
  rw [h2, h1]
  obtain ⟨st, dt, dsc, dbt, crd, mn, bt, rt⟩ := r
  by_cases hbt : bt = "" <;> by_cases hrt : rt = "" <;>
    by_cases hp1 : (categorize_transaction db dsc).1 = "" <;>
      by_cases hp2 : (categorize_transaction db dsc).2 = "" <;>
        simp [hbt, hrt, hp1, hp2]

/-! ### Helper lemmas about the similarity grouper -/

theorem scanAll_skip (sim : String → String → ℚ) (thr : ℚ) (idx : List Nat)
    (d1 : String) (i : Nat) :
    ∀ (P L : List (Nat × String)) (group grouped : List Nat),
      (∀ p ∈ P, i = p.1 ∨ p.1 ∈ grouped) →
      scanAll sim thr idx d1 i (P ++ L) group grouped =
        scanAll sim thr idx d1 i L group grouped := by
  intro P
  induction P with
  | nil => intro L g gr _; rfl
  | cons q P ih =>
    intro L g gr h
    obtain ⟨j, d2⟩ := q
    have hj : i = j ∨ j ∈ gr := h (j, d2) (List.mem_cons_self _ _)
    show scanAll sim thr idx d1 i ((j, d2) :: (P ++ L)) g gr = _
    simp only [scanAll, if_pos hj]
    exact ih L g gr fun q hq => h q (List.mem_cons_of_mem _ hq)

theorem scanAll_eq (sim : String → String → ℚ) (thr : ℚ) (idx : List Nat)
    (d1 : String) (i : Nat) :
    ∀ (L : List (Nat × String)) (group grouped : List Nat),
      (L.map Prod.fst).Nodup →
      scanAll sim thr idx d1 i L group grouped =
        (group ++ ((L.filter fun p => decide (¬(i = p.1 ∨ p.1 ∈ grouped) ∧ thr ≤ sim d1 p.2)).map
            fun p => idx.getD p.1 0),
         grouped ++ (L.filter fun p => decide (¬(i = p.1 ∨ p.1 ∈ grouped) ∧ thr ≤ sim d1 p.2)).map
            Prod.fst) := by
  intro L
  induction L with
  | nil => intro g gr _; simp [scanAll]
  | cons q L ih =>
    intro g gr hnd
    obtain ⟨j, d2⟩ := q
    rw [List.map_cons] at hnd
    have hjL : j ∉ L.map Prod.fst := (List.nodup_cons.mp hnd).1
    have hndL : (L.map Prod.fst).Nodup := (List.nodup_cons.mp hnd).2
    simp only [scanAll, List.filter_cons]
    by_cases hskip : i = j ∨ j ∈ gr
    · rw [if_pos hskip, ih g gr hndL]
      have hdec : (decide (¬(i = (j, d2).1 ∨ (j, d2).1 ∈ gr) ∧ thr ≤ sim d1 (j, d2).2)) = false := by
        simp [hskip]
      rw [hdec]
      simp
    · rw [if_neg hskip]
      have hcong : (L.filter fun p => decide (¬(i = p.1 ∨ p.1 ∈ gr ++ [j]) ∧ thr ≤ sim d1 p.2))
          = L.filter fun p => decide (¬(i = p.1 ∨ p.1 ∈ gr) ∧ thr ≤ sim d1 p.2) := by
        refine List.filter_congr fun p hp => ?_
        have hpj : p.1 ≠ j := fun h => hjL (h ▸ List.mem_map_of_mem Prod.fst hp)
        rw [decide_eq_decide]
        constructor
        · rintro ⟨hno, hs⟩
          exact ⟨fun hor => hno (by
            rcases hor with h | h
            · exact Or.inl h
            · exact Or.inr (List.mem_append.mpr (Or.inl h))), hs⟩
        · rintro ⟨hno, hs⟩
          refine ⟨fun hor => hno ?_, hs⟩
          rcases hor with h | h
          · exact Or.inl h
          · rcases List.mem_append.mp h with h' | h'
            · exact Or.inr h'
            · exact absurd (List.mem_singleton.mp h') hpj
      by_cases hsim : thr ≤ sim d1 d2
      · rw [if_pos hsim, ih (g ++ [idx.getD j 0]) (gr ++ [j]) hndL, hcong]
        have hdec : (decide (¬(i = (j, d2).1 ∨ (j, d2).1 ∈ gr) ∧ thr ≤ sim d1 (j, d2).2)) = true := by
          simp only [decide_eq_true_eq]
          exact ⟨hskip, hsim⟩
        rw [hdec]
        simp [List.append_assoc]
      · rw [if_neg hsim, ih g gr hndL]
        have hdec : (decide (¬(i = (j, d2).1 ∨ (j, d2).1 ∈ gr) ∧ thr ≤ sim d1 (j, d2).2)) = false := by
          simp [hsim]
        rw [hdec]
        simp

theorem outerLoop_eq (sim : String → String → ℚ) (thr : ℚ) (idx : List Nat)
    (allE : List (Nat × String)) (hnd : (allE.map Prod.fst).Nodup) :
    ∀ (R P : List (Nat × String)) (grouped : List Nat) (groups : List (List Nat)),
      allE = P ++ R → (∀ p ∈ P, p.1 ∈ grouped) →
      outerLoop sim thr idx allE R grouped groups =
        groups ++ groupClaimLoop sim thr idx R grouped := by
  intro R
  induction R with
  | nil => intro P gr gs _ _; simp [outerLoop, groupClaimLoop]
  | cons q R ih =>
    intro P gr gs hsplit hP
    obtain ⟨i, d⟩ := q
    have hsplitE : allE = (P ++ [(i, d)]) ++ R := by rw [hsplit]; simp
    by_cases hig : i ∈ gr
    · simp only [outerLoop, groupClaimLoop, if_pos hig]
      refine ih (P ++ [(i, d)]) gr gs hsplitE fun p hp => ?_
      rcases List.mem_append.mp hp with h | h
      · exact hP p h
      · rw [List.mem_singleton.mp h]; exact hig
    · have hconsNd : (((i, d) :: R).map Prod.fst).Nodup := by
        have hsub : ((i, d) :: R).Sublist allE := by
          rw [hsplit]; exact List.sublist_append_right _ _
        exact (hsub.map Prod.fst).nodup hnd
      rw [List.map_cons] at hconsNd
      have hiR : i ∉ R.map Prod.fst := (List.nodup_cons.mp hconsNd).1
      have hndR : (R.map Prod.fst).Nodup := (List.nodup_cons.mp hconsNd).2
      have hskipP : ∀ p ∈ P ++ [(i, d)], i = p.1 ∨ p.1 ∈ gr ++ [i] := by
        intro p hp
        rcases List.mem_append.mp hp with h | h
        · exact Or.inr (List.mem_append.mpr (Or.inl (hP p h)))
        · rw [List.mem_singleton.mp h]; exact Or.inl rfl
      have hcong : (R.filter fun p => decide (¬(i = p.1 ∨ p.1 ∈ gr ++ [i]) ∧ thr ≤ sim d p.2))
          = R.filter fun p => decide (p.1 ∉ gr ∧ thr ≤ sim d p.2) := by
        refine List.filter_congr fun p hp => ?_
        have hpi : p.1 ≠ i := fun h => hiR (h ▸ List.mem_map_of_mem Prod.fst hp)
        rw [decide_eq_decide]
        constructor
        · rintro ⟨hno, hs⟩
          exact ⟨fun hin => hno (Or.inr (List.mem_append.mpr (Or.inl hin))), hs⟩
        · rintro ⟨hno, hs⟩
          refine ⟨fun hor => ?_, hs⟩
          rcases hor with h | h
          · exact hpi h.symm
          · rcases List.mem_append.mp h with h' | h'
            · exact hno h'
            · exact hpi (List.mem_singleton.mp h')
      have hscan : scanAll sim thr idx d i allE [idx.getD i 0] (gr ++ [i])
          = ([idx.getD i 0] ++
              ((R.filter fun p => decide (p.1 ∉ gr ∧ thr ≤ sim d p.2)).map
                fun p => idx.getD p.1 0),
             (gr ++ [i]) ++
              (R.filter fun p => decide (p.1 ∉ gr ∧ thr ≤ sim d p.2)).map Prod.fst) := by
        rw [hsplitE, scanAll_skip sim thr idx d i (P ++ [(i, d)]) R _ _ hskipP,
          scanAll_eq sim thr idx d i R _ _ hndR, hcong]
      simp only [outerLoop, groupClaimLoop, if_neg hig, hscan, List.singleton_append]
      have hP' : ∀ p ∈ P ++ [(i, d)],
          p.1 ∈ (gr ++ [i]) ++
            (R.filter fun p => decide (p.1 ∉ gr ∧ thr ≤ sim d p.2)).map Prod.fst := by
        intro p hp
        rcases List.mem_append.mp hp with h | h
        · exact List.mem_append.mpr (Or.inl (List.mem_append.mpr (Or.inl (hP p h))))
        · rw [List.mem_singleton.mp h]
          exact List.mem_append.mpr (Or.inl (List.mem_append.mpr (Or.inr (List.mem_singleton.mpr rfl))))
      by_cases hms : ((R.filter fun p => decide (p.1 ∉ gr ∧ thr ≤ sim d p.2)).map
          fun p => idx.getD p.1 0).length = 0
      · rw [if_neg (by simp only [List.length_cons]; omega),
          if_neg (by simp only [List.length_cons]; omega),
          ih (P ++ [(i, d)]) _ _ hsplitE hP']
      · rw [if_pos (by simp only [List.length_cons]; omega),
          if_pos (by simp only [List.length_cons]; omega),
          ih (P ++ [(i, d)]) _ _ hsplitE hP']
        simp

theorem find_similar_core_eq (sim : String → String → ℚ) (descriptions : List String)
    (indices : List Nat) (thr : ℚ) :
    find_similar_core sim descriptions indices thr =
      group_claim sim descriptions indices thr := by
  unfold find_similar_core group_claim
  by_cases hd : descriptions.isEmpty
  · rw [if_pos hd]
    have : descriptions = [] := List.isEmpty_iff.mp hd
    subst this
    rfl
  · rw [if_neg hd]
    have hnd : ((descriptions.enum).map Prod.fst).Nodup := by
      rw [List.enum_map_fst]; exact List.nodup_range _
    simpa using
      outerLoop_eq sim thr indices descriptions.enum hnd descriptions.enum [] [] [] rfl
        (by simp)

theorem getD_append_len (l l' : List String) (x d : String) :
    (l ++ (x :: l')).getD l.length d = x := by
  rw [List.getD_append_right l (x :: l') d l.length (le_refl _)]
  simp

/-! ### Claims -/

/-- C1: `add_category(key_phrase, business_label, retailer_label)`
unconditionally appends a rule with exactly the three given values to the
end of the three parallel sequences; after
`add_category("walmart","Retail","Walmart")`, save, and load into a fresh
instance, the loaded database holds that rule at the same relative position
(the old length, i.e. the end of all three sequences). -/
theorem add_category_save_load_roundtrip (db : CategoryDB)
    (h1 : db.descriptions.length = db.business_labels.length)
    (h2 : db.business_labels.length = db.retailer_labels.length) :
    load_category_db (some (save_category_db (add_category db "walmart" "Retail" "Walmart")))
        = add_category db "walmart" "Retail" "Walmart" ∧
      (load_category_db (some (save_category_db
          (add_category db "walmart" "Retail" "Walmart")))).descriptions.getD
          db.descriptions.length "" = "walmart" ∧
      (load_category_db (some (save_category_db
          (add_category db "walmart" "Retail" "Walmart")))).business_labels.getD
          db.descriptions.length "" = "Retail" ∧
      (load_category_db (some (save_category_db
          (add_category db "walmart" "Retail" "Walmart")))).retailer_labels.getD
          db.descriptions.length "" = "Walmart" := by
  have hload : load_category_db (some (save_category_db
      (add_category db "walmart" "Retail" "Walmart")))
      = add_category db "walmart" "Retail" "Walmart" := by
    simp only [save_category_db, load_category_db]
    rw [if_neg (not_not_intro ⟨by simp [add_category, h1], by simp [add_category, h2]⟩)]
  refine ⟨hload, ?_, ?_, ?_⟩ <;> rw [hload] <;> simp only [add_category]
  · exact getD_append_len db.descriptions [] "walmart" ""
  · rw [show db.descriptions.length = db.business_labels.length from h1]
    exact getD_append_len db.business_labels [] "Retail" ""
  · rw [show db.descriptions.length = db.retailer_labels.length from h1.trans h2]
    exact getD_append_len db.retailer_labels [] "Walmart" ""

theorem add_category_save_load_roundtrip_witness :
    (load_category_db (some (save_category_db
        (add_category default_db "walmart" "Retail" "Walmart")))).descriptions.getD 6 ""
        = "walmart" ∧
      (load_category_db (some (save_category_db
          (add_category default_db "walmart" "Retail" "Walmart")))).business_labels.getD 6 ""
        = "Retail" ∧
      (load_category_db (some (save_category_db
          (add_category default_db "walmart" "Retail" "Walmart")))).retailer_labels.getD 6 ""
        = "Walmart" :=
  (add_category_save_load_roundtrip default_db rfl rfl).2

/-- C2: with the three parallel sequences of equal length, `categorize`
returns the pair whose business field is the business label of the earliest
matching rule with a non-empty business label and whose retailer field is,
independently, the retailer label of the earliest matching rule with a
non-empty retailer label (empty string when no such rule exists). -/
theorem categorize_first_match_wins_per_field (db : CategoryDB) (d : String)
    (h1 : db.descriptions.length = db.business_labels.length)
    (h2 : db.descriptions.length = db.retailer_labels.length) :
    categorize_transaction db d =
      (earliestNonempty db.business_labels (matchDescription db d),
       earliestNonempty db.retailer_labels (matchDescription db d)) :=
  categorize_eq_earliest db d h1 h2

theorem categorize_first_match_wins_per_field_witness :
    categorize_transaction default_db "Amazon Prime Subscription" =
      (earliestNonempty default_db.business_labels
          (matchDescription default_db "Amazon Prime Subscription"),
       earliestNonempty default_db.retailer_labels
          (matchDescription default_db "Amazon Prime Subscription")) :=
  categorize_first_match_wins_per_field default_db "Amazon Prime Subscription" rfl rfl

/-- C3: `find_similar_descriptions` is exactly greedy single-pass seed-based
clustering: records are scanned in input order, consumed records are
skipped, an unconsumed record seeds a group collecting every later
unconsumed record whose similarity to the seed reaches the threshold, only
groups of final size at least 2 are emitted, groups appear in seed order
with members in input order (seed first), and members are reported as
original-collection indices. -/
theorem find_similar_is_greedy_seed_clustering (descriptions : List String)
    (indices : List Nat) (threshold : ℚ) :
    find_similar_descriptions descriptions indices threshold =
      group_claim difflibScore descriptions indices threshold :=
  find_similar_core_eq difflibScore descriptions indices threshold

/-- C4: when the three parallel sequences do not all have the same length,
`categorize` returns two empty strings for every description (no exception
is modelled: the function is total). -/
theorem categorize_mismatched_lengths_returns_empty (db : CategoryDB) (d : String)
    (h : db.descriptions.length ≠ db.business_labels.length ∨
         db.descriptions.length ≠ db.retailer_labels.length) :
    categorize_transaction db d = ("", "") := by
  unfold categorize_transaction
  rw [if_pos h]

theorem categorize_mismatched_lengths_returns_empty_witness :
    categorize_transaction ⟨["a"], [], [], []⟩ "anything" = ("", "") :=
  categorize_mismatched_lengths_returns_empty ⟨["a"], [], [], []⟩ "anything" (by decide)

/-- C5: `categorize_transactions` returns a new collection of the same
length (the input value is untouched — the embedding is pure, mirroring the
source's `df.copy()`); per record every field that was non-empty in the
input is unchanged, only empty `business_type`/`retailer` fields may be
filled (and then only with the matcher's output for that description), and a
record with both fields already non-empty is returned untouched for every
rule database whatsoever (the matcher is not consulted). -/
theorem categorize_all_preserves_nonempty_fields (db : CategoryDB) (df : List Record) :
    (categorize_transactions db df).length = df.length ∧
      (∀ r ∈ df, r.business_type ≠ "" → r.retailer ≠ "" →
        ∀ db' : CategoryDB, categorizeRecord db' r = r) ∧
      ∀ i, i < df.length →
        ((categorize_transactions db df).getD i recDefault).status
            = (df.getD i recDefault).status ∧
          ((categorize_transactions db df).getD i recDefault).date
            = (df.getD i recDefault).date ∧
          ((categorize_transactions db df).getD i recDefault).description
            = (df.getD i recDefault).description ∧
          ((categorize_transactions db df).getD i recDefault).debit
            = (df.getD i recDefault).debit ∧
          ((categorize_transactions db df).getD i recDefault).credit
            = (df.getD i recDefault).credit ∧
          ((categorize_transactions db df).getD i recDefault).member_name
            = (df.getD i recDefault).member_name ∧
          ((df.getD i recDefault).business_type ≠ "" →
            ((categorize_transactions db df).getD i recDefault).business_type
              = (df.getD i recDefault).business_type) ∧
          ((df.getD i recDefault).retailer ≠ "" →
            ((categorize_transactions db df).getD i recDefault).retailer
              = (df.getD i recDefault).retailer) ∧
          (((categorize_transactions db df).getD i recDefault).business_type
              = (df.getD i recDefault).business_type ∨
            ((df.getD i recDefault).business_type = "" ∧
              ((categorize_transactions db df).getD i recDefault).business_type
                = (categorize_transaction db (df.getD i recDefault).description).1)) ∧
          (((categorize_transactions db df).getD i recDefault).retailer
              = (df.getD i recDefault).retailer ∨
            ((df.getD i recDefault).retailer = "" ∧
              ((categorize_transactions db df).getD i recDefault).retailer
                = (categorize_transaction db (df.getD i recDefault).description).2)) := by
  refine ⟨by simp [categorize_transactions], ?_, ?_⟩
  · intro r _ hb hr db'
    unfold categorizeRecord
    rw [if_neg (by simp [hb, hr])]
  · intro i hilt
    have hrout : (categorize_transactions db df).getD i recDefault
        = categorizeRecord db (df.getD i recDefault) := by
      unfold categorize_transactions
      rw [List.getD_eq_getElem?_getD, List.getElem?_map, List.getElem?_eq_getElem hilt,
        List.getD_eq_getElem df recDefault hilt]
      rfl
    set rin := df.getD i recDefault with hrin
    rw [hrout, categorizeRecord_eq db rin]
    refine ⟨rfl, rfl, rfl, rfl, rfl, rfl, fun hne => by simp [hne], fun hne => by simp [hne],
      ?_, ?_⟩
    · by_cases hbt : rin.business_type = "" <;>
        by_cases hp1 : (categorize_transaction db rin.description).1 = ""
      · exact Or.inl (by simp [hbt, hp1])
      · exact Or.inr ⟨hbt, by simp [hbt, hp1]⟩
      · exact Or.inl (by simp [hbt])
      · exact Or.inl (by simp [hbt])
    · by_cases hrt : rin.retailer = "" <;>
        by_cases hp2 : (categorize_transaction db rin.description).2 = ""
      · exact Or.inl (by simp [hrt, hp2])
      · exact Or.inr ⟨hrt, by simp [hrt, hp2]⟩
      · exact Or.inl (by simp [hrt])
      · exact Or.inl (by simp [hrt])

theorem categorize_all_preserves_nonempty_fields_witness :
    ((categorize_transactions default_db
        [⟨"Posted", "2023-01-01", "Costco Wholesale #123", "10", "", "T", "Manual", ""⟩]).getD
        0 recDefault).business_type
      = (([⟨"Posted", "2023-01-01", "Costco Wholesale #123", "10", "", "T", "Manual", ""⟩] :
          List Record).getD 0 recDefault).business_type :=
  ((categorize_all_preserves_nonempty_fields default_db
      [⟨"Posted", "2023-01-01", "Costco Wholesale #123", "10", "", "T", "Manual", ""⟩]).2.2
    0 (by decide)).2.2.2.2.2.2.1 (by decide)

/-- C6, counterexample: saving is `json.dump` of the in-memory dict, so an
unknown field carried over from a loaded source is written back out; the
saved object is not restricted to the three canonical fields. -/
theorem save_retains_unknown_fields_counterexample :
    (save_category_db (load_category_db
        (some ⟨["a"], ["b"], ["c"], [("note", "x")]⟩))).extra ≠ [] := by
  decide

/-- C6, amended: `save_category_db` writes the in-memory database verbatim —
a valid loaded object round-trips unchanged, unknown fields included (they
are not dropped on save), and unknown fields are ignored in the sense that
they never influence categorization. -/
theorem save_writes_db_verbatim (db : CategoryDB)
    (h : db.descriptions.length = db.business_labels.length ∧
         db.business_labels.length = db.retailer_labels.length) :
    save_category_db (load_category_db (some db)) = db ∧
      ∀ d, categorize_transaction { db with extra := [] } d = categorize_transaction db d := by
  constructor
  · simp only [save_category_db, load_category_db]
    rw [if_neg (not_not_intro h)]
  · intro d
    obtain ⟨ds, bl, rl, e⟩ := db
    exact categorize_transaction_extra ds bl rl [] e d

theorem save_writes_db_verbatim_witness :
    save_category_db (load_category_db (some ⟨["a"], ["b"], ["c"], [("note", "x")]⟩))
      = (⟨["a"], ["b"], ["c"], [("note", "x")]⟩ : CategoryDB) :=
  (save_writes_db_verbatim ⟨["a"], ["b"], ["c"], [("note", "x")]⟩ ⟨rfl, rfl⟩).1

/-- C7, counterexample: the set of grouped indices is not antitone in the
threshold.  With descriptions `["aa","aabbbb","cabbbb"]` (difflib ratios:
1/2, 1/4 to the first seed and 5/6 between the last two) and thresholds
2/5 < 4/5, index 2 is grouped at the higher threshold but not at the lower
one, because at 2/5 the first seed consumes index 1, leaving index 2 as an
emitted-nothing singleton. -/
theorem grouped_indices_not_threshold_monotone :
    mkRat 2 5 < mkRat 4 5 ∧
      2 ∈ groupedIndices
        (find_similar_descriptions ["aa", "aabbbb", "cabbbb"] [0, 1, 2] (mkRat 4 5)) ∧
      2 ∉ groupedIndices
        (find_similar_descriptions ["aa", "aabbbb", "cabbbb"] [0, 1, 2] (mkRat 2 5)) := by
  refine ⟨by decide, ?_, ?_⟩ <;> decide

/-- C7, amended: threshold monotonicity holds per seed scan, not for the
grouped-index set: with the same seed, candidate list and consumed state,
every member collected at the higher threshold is also collected at the
lower one. -/
theorem seed_scan_members_threshold_monotone (sim : String → String → ℚ)
    (t1 t2 : ℚ) (idx : List Nat) (d1 : String) (i : Nat)
    (L : List (Nat × String)) (group grouped : List Nat)
    (hnd : (L.map Prod.fst).Nodup) (h12 : t1 ≤ t2) :
    ∀ x, x ∈ (scanAll sim t2 idx d1 i L group grouped).1 →
      x ∈ (scanAll sim t1 idx d1 i L group grouped).1 := by
  intro x hx
  rw [scanAll_eq sim t2 idx d1 i L group grouped hnd] at hx
  rw [scanAll_eq sim t1 idx d1 i L group grouped hnd]
  rcases List.mem_append.mp hx with h | h
  · exact List.mem_append.mpr (Or.inl h)
  · refine List.mem_append.mpr (Or.inr ?_)
    rcases List.mem_map.mp h with ⟨p, hp, hfx⟩
    refine List.mem_map.mpr ⟨p, ?_, hfx⟩
    rcases List.mem_filter.mp hp with ⟨hpL, hpd⟩
    rw [decide_eq_true_eq] at hpd
    exact List.mem_filter.mpr ⟨hpL, decide_eq_true ⟨hpd.1, le_trans h12 hpd.2⟩⟩

theorem seed_scan_members_threshold_monotone_witness :
    2 ∈ (scanAll difflibScore (mkRat 2 5) [0, 1, 2] "aabbbb" 1 [(2, "cabbbb")] [1] [0, 1]).1 :=
  seed_scan_members_threshold_monotone difflibScore (mkRat 2 5) (mkRat 4 5) [0, 1, 2] "aabbbb" 1
    [(2, "cabbbb")] [1] [0, 1] (by decide) (by decide) 2 (by decide)

/-- C8: `categorize_transactions` is idempotent — already-filled fields
block re-matching, and the matcher is deterministic per description, so a
second pass changes nothing. -/
theorem categorize_all_idempotent (db : CategoryDB) (df : List Record) :
    categorize_transactions db (categorize_transactions db df) =
      categorize_transactions db df := by
  unfold categorize_transactions
  rw [List.map_map]
  exact List.map_congr_left fun r _ => categorizeRecord_idem db r

/-- C9, counterexample: the source normalizes with `replace(" ", "")`, which
removes only the space character, not every whitespace character: with a
single rule whose key phrase is `"ab"`, the description containing a tab
between `a` and `b` does not match, although the claim's all-whitespace
normalization says it must. -/
theorem match_tab_whitespace_counterexample :
    matchDescription ⟨["ab"], ["X"], ["Y"], []⟩ "a\tb" = [] ∧
      match_claim_ws ⟨["ab"], ["X"], ["Y"], []⟩ "a\tb" = [0] := by
  refine ⟨?_, ?_⟩ <;> decide

/-- C9, amended: `match` returns exactly the ascending list of indices whose
key phrase, lowercased with space characters (only) removed, is a substring
of the description lowercased with space characters (only) removed. -/
theorem match_eq_space_normalized_filter (db : CategoryDB) (d : String) :
    matchDescription db d = match_claim_space db d ∧
      (matchDescription db d).Pairwise (· < ·) :=
  ⟨matchDescription_eq_filter db d, matchDescription_pairwise db d⟩

/-- C10: a rule whose key phrase normalizes to the empty string matches
every description (the empty string is a substring of everything), and when
its label for a field is non-empty and no earlier matching rule supplies
that field, its label is what `categorize` returns for that field. -/
theorem empty_key_phrase_rule_matches_all (db : CategoryDB) (i : Nat)
    (h1 : db.descriptions.length = db.business_labels.length)
    (h2 : db.descriptions.length = db.retailer_labels.length)
    (hi : i < db.descriptions.length)
    (hkp : strNorm (db.descriptions.getD i "") = []) :
    ∀ d : String,
      i ∈ matchDescription db d ∧
        (db.business_labels.getD i "" ≠ "" →
          (∀ j ∈ matchDescription db d, j < i → db.business_labels.getD j "" = "") →
          (categorize_transaction db d).1 = db.business_labels.getD i "") ∧
        (db.retailer_labels.getD i "" ≠ "" →
          (∀ j ∈ matchDescription db d, j < i → db.retailer_labels.getD j "" = "") →
          (categorize_transaction db d).2 = db.retailer_labels.getD i "") := by
  intro d
  have hmem : i ∈ matchDescription db d :=
    mem_matchDescription.mpr ⟨hi, by rw [hkp]; exact hasSub_nil _⟩
  refine ⟨hmem, fun hne hearlier => ?_, fun hne hearlier => ?_⟩
  · rw [categorize_eq_earliest db d h1 h2]
    exact earliestNonempty_eq_of db.business_labels (matchDescription db d) i
      (matchDescription_pairwise db d) hmem hne hearlier
  · rw [categorize_eq_earliest db d h1 h2]
    exact earliestNonempty_eq_of db.retailer_labels (matchDescription db d) i
      (matchDescription_pairwise db d) hmem hne hearlier

theorem empty_key_phrase_rule_matches_all_witness :
    0 ∈ matchDescription ⟨[""], ["Biz"], ["Ret"], []⟩ "zzz" ∧
      (categorize_transaction ⟨[""], ["Biz"], ["Ret"], []⟩ "zzz").1 = "Biz" := by
  have h := empty_key_phrase_rule_matches_all ⟨[""], ["Biz"], ["Ret"], []⟩ 0 rfl rfl
    (by decide) (by decide) "zzz"
  exact ⟨h.1, h.2.1 (by decide) fun j hj hj0 => absurd hj0 (Nat.not_lt_zero j)⟩

end Pnl
